import Mathlib

/-!
Verification development for the time sheet calculator
(`src/timesheet_service.py`).

The Python module is shallowly embedded below:

* character-level string handling models Python `str.strip` / `str.lower`
  over the ASCII range (all inputs exercised by the claims are ASCII);
* `TimeSheetService._parse_time`'s regular expression
  `^(\d{1,2})(?::?(\d{0,2}))?\s*(a|p|am|pm)?$` is embedded as the
  deterministic greedy scanner `scanTime` (the regex is anchored and its
  quantifiers are greedy, so the leftmost match it produces takes two hour
  digits whenever two leading digits are available, then up to two minute
  digits, then whitespace, then the trailing period marker);
* Python `int(...)` on the lunch field is embedded as `pyInt`
  (optional sign, digits, single underscores between digits);
* Python `round` (banker's rounding) on the exact rational values that the
  service computes is embedded as `pyRound`; the float arithmetic of the
  source never strays far enough from the rational value to change the
  rounded result on the domain used here (quarters of an hour), so the
  rational model is used throughout;
* dictionaries are embedded as insertion-ordered association lists with
  Python `dict`'s replace-or-append update semantics;
* a Python exception escaping `calculate_week` (the `StopIteration` raised
  by `next(...)` when no day is named Friday) is modelled by `none` in the
  result of `calculate_week`.
-/

attribute [local semireducible] Rat.add Rat.sub Rat.mul Rat.inv

/-- One decimal digit as a character, `digitChar 5 = '5'`. -/
def digitChar (n : Nat) : Char := Char.ofNat (48 + n)

/-- Numeric value of a list of decimal digit characters (most significant
first), as computed by Python `int` on a digit string. -/
def natOfDigits (l : List Char) : Nat := l.foldl (fun a c => 10 * a + (c.toNat - 48)) 0

/-- Whitespace in the sense of Python `str.strip` / `re` `\s` (ASCII range). -/
def pyIsSpace (c : Char) : Bool :=
  c == ' ' || c == '\t' || c == '\n' || c == '\r' || c == '\x0b' || c == '\x0c'

/-- Python `str.strip`: drop whitespace from both ends. -/
def pyStrip (l : List Char) : List Char :=
  ((l.dropWhile pyIsSpace).reverse.dropWhile pyIsSpace).reverse

/-- Python `str.lower` over a character list (ASCII range). -/
def pyLower (l : List Char) : List Char := l.map Char.toLower

/-- Python `str.strip` on a `String`. -/
def stripStr (s : String) : String := ⟨pyStrip s.data⟩

/-- Python `str.lower` on a `String`. -/
def pyLowerStr (s : String) : String := ⟨pyLower s.data⟩

/-- Greedily take up to two leading decimal digits, as the anchored greedy
regex groups `(\d{1,2})` and `(\d{0,2})` do. Returns the digits taken and
the rest of the input. -/
def takeDigits2 : List Char → List Char × List Char
  | [] => ([], [])
  | [c] => if c.isDigit then ([c], []) else ([], [c])
  | c1 :: c2 :: rest =>
    if c1.isDigit then
      if c2.isDigit then ([c1, c2], rest) else ([c1], c2 :: rest)
    else ([], c1 :: c2 :: rest)

/-- The optional-colon step `:?` of the regex: one leading colon is
consumed when present. -/
def stripColon : List Char → List Char
  | ':' :: t => t
  | other => other

/-- Scanner for the regex `^(\d{1,2})(?::?(\d{0,2}))?\s*(a|p|am|pm)?$` of
`_parse_time`, applied to the lowercased, stripped input. Returns the raw
hour, the raw minute, and the period marker (`none` absent, `some false`
am, `some true` pm) after the syntactic range check
`hour > 23 or minute > 59`. -/
def scanTime (cs : List Char) : Option (Nat × Nat × Option Bool) :=
  let p1 := takeDigits2 cs
  if p1.1 = [] then none
  else
    let r2 := stripColon p1.2
    let p2 := takeDigits2 r2
    let r4 := p2.2.dropWhile pyIsSpace
    let per : Option (Option Bool) :=
      if r4 = [] then some none
      else if r4 = ['a'] || r4 = ['a', 'm'] then some (some false)
      else if r4 = ['p'] || r4 = ['p', 'm'] then some (some true)
      else none
    match per with
    | none => none
    | some p =>
      let hour := natOfDigits p1.1
      let minute := natOfDigits p2.1
      if hour > 23 || minute > 59 then none else some (hour, minute, p)

/-- The hour-resolution step of `_parse_time` (source lines 459-477):
12-hour to 24-hour conversion using the period marker when present, the
`assume_am` flag when absent, and passing hours 13-23 through unchanged. -/
def resolve_hour (hour : Nat) (period : Option Bool) (assume_am : Bool) : Nat :=
  match period with
  | some isPM =>
    let h := if hour = 12 then 0 else hour
    if isPM then h + 12 else h
  | none =>
    if hour ≤ 12 then
      if assume_am then
        if hour = 12 then 0 else hour
      else
        if hour ≠ 12 then hour + 12 else hour
    else hour

/-- Model of `TimeSheetService._minutes_to_display` as a character list:
hour taken mod 24, 12-hour display hour with 0 mapped to 12, minute
zero-padded to two digits, period from `hour < 12`. -/
def displayChars (m : Nat) : List Char :=
  let hour := m / 60 % 24
  let minute := m % 60
  let dh := if hour % 12 = 0 then 12 else hour % 12
  let hourCs := if dh < 10 then [digitChar dh] else [digitChar (dh / 10), digitChar (dh % 10)]
  hourCs ++ ':' :: digitChar (minute / 10) :: digitChar (minute % 10)
    :: ' ' :: (if hour < 12 then ['A', 'M'] else ['P', 'M'])

/-- Model of `TimeSheetService._minutes_to_display` on `String`. -/
def minutes_to_display (m : Nat) : String := ⟨displayChars m⟩

/-- Minutes-since-midnight result of `TimeSheetService._parse_time`:
`none` models the error triple `(None, None, True)`. -/
def parse_time (raw : String) (assume_am : Bool) : Option Nat :=
  if raw = "" then none
  else
    match scanTime (pyStrip (pyLower raw.data)) with
    | none => none
    | some (hour, minute, period) => some (resolve_hour hour period assume_am * 60 + minute)

/-- The full result triple `(minutes, display, is_error)` of
`TimeSheetService._parse_time`; on success the display string is produced
by the separate minutes-to-display step. -/
def parse_time_full (raw : String) (assume_am : Bool) :
    Option Nat × Option String × Bool :=
  match parse_time raw assume_am with
  | none => (none, none, true)
  | some m => (some m, some (minutes_to_display m), false)

/-- Digit run with optional single underscores between digits, as accepted
by Python `int` after the optional sign. -/
def digitsUnd : List Char → Bool
  | [] => false
  | [c] => c.isDigit
  | c :: '_' :: rest => c.isDigit && digitsUnd rest
  | c :: rest => c.isDigit && digitsUnd rest

/-- Python `int(...)` on a string: surrounding whitespace, optional sign,
decimal digits with single underscores between digits; `none` models a
raised `ValueError`. -/
def pyInt (s : String) : Option Int :=
  match pyStrip s.data with
  | '+' :: rest => if digitsUnd rest then some (natOfDigits (rest.filter Char.isDigit)) else none
  | '-' :: rest => if digitsUnd rest then some (-(natOfDigits (rest.filter Char.isDigit) : Int)) else none
  | rest => if digitsUnd rest then some (natOfDigits (rest.filter Char.isDigit)) else none

/-- The lunch-field validation used throughout `_process_day` and
`_calculate_friday_clock_out`: `int(lunch_raw)` followed by the
non-negativity check, `none` modelling the `ValueError` path. -/
def lunchCheck (s : String) : Option Nat :=
  match pyInt s with
  | none => none
  | some n => if n < 0 then none else some n.toNat

/-- Python `round` on an exact rational: nearest integer, ties to even. -/
def pyRound (q : ℚ) : ℤ :=
  let f := ⌊q⌋
  let r := q - (f : ℚ)
  if r < 1 / 2 then f
  else if 1 / 2 < r then f + 1
  else if f % 2 = 0 then f else f + 1

/-- Model of `TimeSheetService._round_to_quarter`: `round(value * 4) / 4` followed by
`round(..., 2)`, on the exact rational value. -/
def round_to_quarter (q : ℚ) : ℚ :=
  let r1 : ℚ := (pyRound (q * 4) : ℚ) / 4
  (pyRound (r1 * 100) : ℚ) / 100

/-- Raw user input for a single work day (dataclass `DayInput`). -/
structure DayInput where
  day_name : String
  start_time : String
  end_time : String
  lunch_minutes : String
deriving DecidableEq

/-- The five components returned by `TimeSheetService._process_day`:
worked minutes (or `none`), error lines, warning lines, normalized display
values, and field-level error labels. -/
structure DayResult where
  minutes : Option Nat
  errors : List String
  warnings : List String
  normalized : List (String × String)
  field_errors : List (String × String)
deriving DecidableEq

/-- Python `dict` insertion: replace the value of an existing key in place,
otherwise append the new pair at the end (insertion order preserved). -/
def dictInsert (m : List (String × α)) (k : String) (v : α) : List (String × α) :=
  if (m.lookup k).isSome then m.map (fun p => if p.1 = k then (k, v) else p)
  else m ++ [(k, v)]

/-- Python `dict.update`: insert every pair of `n` into `m` in order. -/
def dictUpdate (m n : List (String × α)) : List (String × α) :=
  n.foldl (fun acc p => dictInsert acc p.1 p.2) m

/-- Model of `TimeSheetService._process_day`: per-day validation and worked-minutes
computation across the day-completeness cases. -/
def process_day (day : DayInput) : DayResult :=
  let name := day.day_name
  let start_raw := stripStr day.start_time
  let end_raw := stripStr day.end_time
  let lunch_raw := stripStr day.lunch_minutes
  if start_raw = "" ∧ end_raw = "" then
    if lunch_raw ≠ "" then
      match lunchCheck lunch_raw with
      | none => ⟨none, [name ++ ": invalid lunch duration"], [], [],
          [(name ++ "_lunch", "Invalid lunch duration")]⟩
      | some _ => ⟨some 480, [], [], [], []⟩
    else ⟨some 480, [], [], [], []⟩
  else if start_raw ≠ "" ∧ end_raw = "" then
    if pyLowerStr name ≠ "friday" then
      match parse_time start_raw true with
      | none => ⟨none, [name ++ ": invalid start time"], [], [],
          [(name ++ "_start", "Invalid start time")]⟩
      | some sm =>
        let norm := [(name ++ "_start", minutes_to_display sm)]
        if lunch_raw ≠ "" then
          match lunchCheck lunch_raw with
          | none => ⟨none, [name ++ ": invalid lunch duration"], [], norm,
              [(name ++ "_lunch", "Invalid lunch duration")]⟩
          | some _ => ⟨some 480, [], [], norm, []⟩
        else ⟨some 480, [], [], norm, []⟩
    else
      match parse_time start_raw true with
      | none => ⟨none, [name ++ ": invalid start time"], [], [],
          [(name ++ "_start", "Invalid start time")]⟩
      | some sm =>
        let norm := [(name ++ "_start", minutes_to_display sm)]
        if lunch_raw = "" then
          ⟨none, [], [name ++ ": lunch assumed to be 60 minutes"], norm, []⟩
        else
          match lunchCheck lunch_raw with
          | none => ⟨none, [name ++ ": invalid lunch duration"], [], norm,
              [(name ++ "_lunch", "Invalid lunch duration")]⟩
          | some _ => ⟨none, [], [], norm, []⟩
  else if start_raw = "" ∧ end_raw ≠ "" then
    match parse_time end_raw false with
    | none => ⟨none, [name ++ ": invalid end time"], [], [],
        [(name ++ "_end", "Invalid end time")]⟩
    | some em =>
      let norm := [(name ++ "_end", minutes_to_display em)]
      if lunch_raw ≠ "" then
        match lunchCheck lunch_raw with
        | none => ⟨none, [name ++ ": invalid lunch duration"], [], norm,
            [(name ++ "_lunch", "Invalid lunch duration")]⟩
        | some _ => ⟨some 480, [], [], norm, []⟩
      else ⟨some 480, [], [], norm, []⟩
  else
    match parse_time start_raw true, parse_time end_raw false with
    | none, none => ⟨none, [name ++ ": invalid start time", name ++ ": invalid end time"],
        [], [], [(name ++ "_start", "Invalid start time"), (name ++ "_end", "Invalid end time")]⟩
    | none, some em => ⟨none, [name ++ ": invalid start time"], [],
        [(name ++ "_end", minutes_to_display em)], [(name ++ "_start", "Invalid start time")]⟩
    | some sm, none => ⟨none, [name ++ ": invalid end time"], [],
        [(name ++ "_start", minutes_to_display sm)], [(name ++ "_end", "Invalid end time")]⟩
    | some sm, some em =>
      let norm := [(name ++ "_start", minutes_to_display sm),
                   (name ++ "_end", minutes_to_display em)]
      if em ≤ sm then
        ⟨none, [name ++ ": end time is before start time"], [], norm,
          [(name ++ "_end", "End time before start time")]⟩
      else
        let duration := em - sm
        if lunch_raw = "" then
          let w := [name ++ ": lunch assumed to be 60 minutes"]
          if 60 > duration then
            ⟨none, [name ++ ": lunch exceeds shift length"], w, norm,
              [(name ++ "_lunch", "Lunch exceeds shift length")]⟩
          else ⟨some (duration - 60), [], w, norm, []⟩
        else
          match lunchCheck lunch_raw with
          | none => ⟨none, [name ++ ": invalid lunch duration"], [], norm,
              [(name ++ "_lunch", "Invalid lunch duration")]⟩
          | some L =>
            if L > duration then
              ⟨none, [name ++ ": lunch exceeds shift length"], [], norm,
                [(name ++ "_lunch", "Lunch exceeds shift length")]⟩
            else ⟨some (duration - L), [], [], norm, []⟩

/-- Accumulator state of `calculate_week`'s first pass over the days. -/
structure PassState where
  errors : List String
  warnings : List String
  normalized : List (String × String)
  field_errors : List (String × String)
  daily : List (String × Nat)
deriving DecidableEq

/-- One iteration of `calculate_week`'s first loop: merge one day's results
into the accumulators. -/
def stepDay (st : PassState) (day : DayInput) : PassState :=
  let r := process_day day
  { errors := st.errors ++ r.errors
    warnings := st.warnings ++ r.warnings
    normalized := dictUpdate st.normalized r.normalized
    field_errors := dictUpdate st.field_errors r.field_errors
    daily := match r.minutes with
      | some m => dictInsert st.daily day.day_name m
      | none => st.daily }

/-- First pass of `calculate_week` over the day list. -/
def processAll : PassState → List DayInput → PassState
  | st, [] => st
  | st, d :: ds => processAll (stepDay st d) ds

/-- The empty accumulator state at the start of `calculate_week`. -/
def initState : PassState := ⟨[], [], [], [], []⟩

/-- Result record of a full weekly calculation (dataclass
`CalculationResult`); numeric fields are exact rationals. -/
structure CalculationResult where
  total_hours : Option ℚ
  hours_to_40 : Option ℚ
  friday_clock_out : Option String
  daily_hours : List (String × ℚ)
  field_errors : List (String × String)
  errors : List String
  warnings : List String
  successes : List String
  normalized_times : List (String × String)
deriving DecidableEq

/-- Model of `TimeSheetService._calculate_friday_clock_out`. The Python function
mutates the `warnings`, `successes` and `normalized` collections in place
and returns an optional clock-out string; here the mutated collections are
returned alongside it. The outer `none` models the `StopIteration`
exception raised by `next(...)` when no day is named Friday. -/
def calculate_friday_clock_out (days : List DayInput) (pre_friday_minutes : Nat)
    (_friday_minutes : Option Nat) (warnings successes : List String)
    (normalized : List (String × String)) :
    Option (Option String × List String × List String × List (String × String)) :=
  match days.find? (fun d => pyLowerStr d.day_name == "friday") with
  | none => none
  | some friday =>
    if pre_friday_minutes ≥ 40 * 60 then
      some (some (((normalized.lookup "Friday_start").getD "8:00 AM")), warnings,
        successes ++ ["40 hours reached before Friday this week"], normalized)
    else
      let start_raw := stripStr friday.start_time
      let lunch_raw := stripStr friday.lunch_minutes
      let startRes : Option (Nat × List (String × String) × List String) :=
        if start_raw = "" then
          some (8 * 60, dictInsert normalized "Friday_start" "8:00 AM",
            warnings ++ ["Friday start time assumed to be 8:00 AM"])
        else
          match parse_time start_raw true with
          | none => none
          | some sm => some (sm, dictInsert normalized "Friday_start" (minutes_to_display sm),
              warnings)
      match startRes with
      | none => some (none, warnings, successes, normalized)
      | some (start_minutes, norm1, warn1) =>
        let lunchRes : Option (Nat × List String) :=
          if lunch_raw = "" then
            some (60, if "Friday: lunch assumed to be 60 minutes" ∈ warn1 then warn1
              else warn1 ++ ["Friday: lunch assumed to be 60 minutes"])
          else
            match lunchCheck lunch_raw with
            | none => none
            | some L => some (L, warn1)
        match lunchRes with
        | none => some (none, warn1, successes, norm1)
        | some (lunch_minutes, warn2) =>
          let endDisplay : Option String :=
            if stripStr friday.end_time = "" then none
            else
              match parse_time (stripStr friday.end_time) false with
              | none => none
              | some em => some (minutes_to_display em)
          match endDisplay with
          | some ed => some (some ed, warn2, successes, dictInsert norm1 "Friday_end" ed)
          | none =>
            let remaining := 40 * 60 - pre_friday_minutes + lunch_minutes
            some (some (minutes_to_display (start_minutes + remaining)), warn2, successes, norm1)

/-- Model of `TimeSheetService.calculate_week`: full validation and calculation for
the work week. `none` models the `StopIteration` exception that escapes
the Python method when no errors occurred and no input day is named
Friday. -/
def calculate_week (days : List DayInput) : Option CalculationResult :=
  let st := processAll initState days
  if st.errors ≠ [] then
    some ⟨none, none, none, [], st.field_errors, st.errors, st.warnings, [], st.normalized⟩
  else
    let daily_hours := st.daily.map (fun p => (p.1, round_to_quarter ((p.2 : ℚ) / 60)))
    let total_minutes := (st.daily.map (fun p => p.2)).sum
    let total_hours := round_to_quarter ((total_minutes : ℚ) / 60)
    let hours_to_40 := round_to_quarter ((40 * 60 - (total_minutes : ℚ)) / 60)
    let pre := ((st.daily.filter (fun p => !(pyLowerStr p.1 == "friday"))).map (fun p => p.2)).sum
    match calculate_friday_clock_out days pre (st.daily.lookup "Friday")
        st.warnings [] st.normalized with
    | none => none
    | some (fco, w2, s2, n2) =>
      some ⟨some total_hours, some hours_to_40, fco, daily_hours, st.field_errors,
        st.errors, w2, s2, n2⟩

/-- Total worked minutes of the week as `calculate_week` computes them:
the sum of the values of the per-day minutes dictionary built by the first
pass. -/
def weekTotalMinutes (days : List DayInput) : Nat :=
  ((processAll initState days).daily.map (fun p => p.2)).sum

/-- Marker alternatives of the trailing period group, lowercased. -/
def IsMarker (p : List Char) : Prop :=
  p = [] ∨ p = ['a'] ∨ p = ['p'] ∨ p = ['a', 'm'] ∨ p = ['p', 'm']

/-- Shape of the (lowercased, stripped) strings accepted by `_parse_time`:
a 1-2 digit hour taken greedily, an optional colon, a 0-2 digit minute
taken greedily, optional whitespace, and an optional period marker, with
hour at most 23 and minute at most 59. The two greediness side conditions
reflect the regex's greedy quantifiers: the hour takes a second leading
digit whenever one is available, and the minute takes every digit that
follows (up to two). -/
def TimeShape (cs : List Char) : Prop :=
  ∃ hd c md w p : List Char,
    cs = hd ++ c ++ md ++ w ++ p ∧
    (∀ x ∈ hd, x.isDigit) ∧ 1 ≤ hd.length ∧ hd.length ≤ 2 ∧
    (c = [] ∨ c = [':']) ∧
    (∀ x ∈ md, x.isDigit) ∧ md.length ≤ 2 ∧
    (∀ x, (c ++ md ++ w ++ p).head? = some x → x.isDigit → hd.length = 2) ∧
    (∀ x, (w ++ p).head? = some x → x.isDigit → md.length = 2) ∧
    (∀ x ∈ w, pyIsSpace x) ∧ IsMarker p ∧
    natOfDigits hd ≤ 23 ∧ natOfDigits md ≤ 59

/-- Modelled from the spec: the token grammar that §4.1 of the spec (and
claim C3) describes, in which the minute digits must be colon-separated
and no whitespace may stand between the time digits and the period marker.
Hour and minute are entire digit runs, with hour at most 23 and minute at
most 59. -/
def specTimeShape (raw : String) : Bool :=
  let cs := pyStrip (pyLower raw.data)
  let hd := cs.takeWhile Char.isDigit
  let r1 := cs.dropWhile Char.isDigit
  let markerB : List Char → Bool := fun p =>
    p = [] || p = ['a'] || p = ['p'] || p = ['a', 'm'] || p = ['p', 'm']
  (1 ≤ hd.length && hd.length ≤ 2 && natOfDigits hd ≤ 23) &&
    match r1 with
    | ':' :: t =>
      let md := t.takeWhile Char.isDigit
      let r2 := t.dropWhile Char.isDigit
      md.length ≤ 2 && natOfDigits md ≤ 59 && markerB r2
    | other => markerB other

/-! Round-trip lemmas for the parser and formatter -/

theorem displayChars_mod (m : Nat) : displayChars m = displayChars (m % 1440) := by
  have h60 : m % 1440 % 60 = m % 60 :=
    Nat.mod_mod_of_dvd m (by norm_num)
  have hdiv : m % 1440 / 60 = m / 60 % 24 := by
    have : (1440 : Nat) = 60 * 24 := by norm_num
    rw [this, Nat.mod_mul_right_div_self]
  have hh : m % 1440 / 60 % 24 = m / 60 % 24 := by
    rw [hdiv, Nat.mod_mod_of_dvd]
    exact dvd_refl 24
  simp only [displayChars, h60, hh]

set_option maxRecDepth 4000 in
theorem parse_display_hm :
    ∀ h < 24, ∀ mi < 60, ∀ b, parse_time (minutes_to_display (h * 60 + mi)) b = some (h * 60 + mi) := by
  decide

theorem parse_display_small (k : Nat) (hk : k < 1440) (b : Bool) :
    parse_time (minutes_to_display k) b = some k := by
  have h1 : k / 60 < 24 := by omega
  have h2 : k % 60 < 60 := Nat.mod_lt _ (by norm_num)
  have h3 : k / 60 * 60 + k % 60 = k := by omega
  have h4 := parse_display_hm (k / 60) h1 (k % 60) h2 b
  rwa [h3] at h4

theorem parse_display_eq_mod (m : Nat) (b : Bool) :
    parse_time (minutes_to_display m) b = some (m % 1440) := by
  have hd : minutes_to_display m = minutes_to_display (m % 1440) := by
    unfold minutes_to_display
    rw [displayChars_mod]
  rw [hd]
  exact parse_display_small (m % 1440) (Nat.mod_lt _ (by norm_num)) b

/-! Claims C8, C10 and C2 -/

/-- C8: for inputs without a period marker, the hour-resolution step maps
hours as follows: under assume-AM, hour 12 becomes 0 and hours 1-11 stay
unchanged; under assume-PM, hour 12 stays 12 and hours 1-11 gain 12; and
hours 13-23 pass through unchanged under either flag. -/
theorem resolve_hour_no_period (h : Nat) :
    (1 ≤ h → h ≤ 11 → resolve_hour h none true = h ∧ resolve_hour h none false = h + 12) ∧
    resolve_hour 12 none true = 0 ∧ resolve_hour 12 none false = 12 ∧
    (13 ≤ h → h ≤ 23 → ∀ b, resolve_hour h none b = h) := by
  refine ⟨fun h1 h2 => ?_, by decide, by decide, fun h1 h2 b => ?_⟩
  · have hle : h ≤ 12 := by omega
    have hne : h ≠ 12 := by omega
    simp [resolve_hour, hle, hne]
  · have hgt : ¬ h ≤ 12 := by omega
    simp [resolve_hour, hgt]

/-- Witness for C8 at hours 5 and 13. -/
theorem resolve_hour_no_period_witness :
    ((1 : Nat) ≤ 5 ∧ (5 : Nat) ≤ 11) ∧
    resolve_hour 5 none true = 5 ∧ resolve_hour 5 none false = 17 ∧
    resolve_hour 13 none true = 13 ∧ resolve_hour 13 none false = 13 := by
  refine ⟨by decide, ?_, ?_, ?_, ?_⟩
  · exact ((resolve_hour_no_period 5).1 (by decide) (by decide)).1
  · exact ((resolve_hour_no_period 5).1 (by decide) (by decide)).2
  · exact (resolve_hour_no_period 13).2.2.2 (by decide) (by decide) true
  · exact (resolve_hour_no_period 13).2.2.2 (by decide) (by decide) false

/-- C10: with no period marker and `assume_am = false`, hour 0 gains 12;
concretely, parsing "0:30" under assume-PM yields 750 minutes displayed as
"12:30 PM", while under assume-AM the same input stays at 30 minutes past
midnight. -/
theorem parse_time_hour_zero_assume_pm :
    resolve_hour 0 none false = 12 ∧
    parse_time "0:30" false = some 750 ∧
    parse_time_full "0:30" false = (some 750, some "12:30 PM", false) ∧
    parse_time "0:30" true = some 30 := by decide

/-- Counterexample to C2 as stated: "13pm" parses successfully to 1500
minutes, but formatting 1500 gives "1:00 AM", which re-parses (with either
flag) to 60, not 1500. -/
theorem parse_format_roundtrip_cex :
    parse_time "13pm" true = some 1500 ∧ parse_time "13pm" false = some 1500 ∧
    minutes_to_display 1500 = "1:00 AM" ∧
    parse_time (minutes_to_display 1500) true = some 60 ∧
    parse_time (minutes_to_display 1500) false = some 60 ∧
    (60 : Nat) ≠ 1500 := by decide

/-- C2 amended: for every successfully parsed input, formatting the parsed
minute value and re-parsing the display string with either flag succeeds
and yields the minute value reduced mod 1440; in particular the round trip
is the identity exactly on parses below 1440 minutes (which excludes only
inputs carrying a "pm" marker with hours 13-23). -/
theorem parse_format_roundtrip (raw : String) (b b2 : Bool) (m : Nat)
    (h : parse_time raw b = some m) :
    parse_time (minutes_to_display m) b2 = some (m % 1440) ∧
    (m < 1440 → parse_time (minutes_to_display m) b2 = some m) := by
  refine ⟨parse_display_eq_mod m b2, fun hm => ?_⟩
  have h2 := parse_display_eq_mod m b2
  rwa [Nat.mod_eq_of_lt hm] at h2

/-- Witness for C2 amended at raw input "8:30 am". -/
theorem parse_format_roundtrip_witness :
    parse_time "8:30 am" true = some 510 ∧
    parse_time (minutes_to_display 510) true = some (510 % 1440) ∧
    parse_time (minutes_to_display 510) false = some 510 := by
  refine ⟨by decide, ?_, ?_⟩
  · exact (parse_format_roundtrip "8:30 am" true true 510 (by decide)).1
  · exact (parse_format_roundtrip "8:30 am" true false 510 (by decide)).2 (by decide)

/-! Claims C6 and C5: the Friday projector -/

/-- C6: when the pre-Friday minutes reach 2400, the projector appends the
success message (which contains "40 hours reached before Friday") and
returns the normalized Friday start time when one was recorded, else the
default "8:00 AM". -/
theorem friday_projector_forty_reached (days : List DayInput) (pre : Nat) (fm : Option Nat)
    (w su : List String) (n : List (String × String)) (fd : DayInput)
    (hfind : days.find? (fun d => pyLowerStr d.day_name == "friday") = some fd)
    (hpre : 2400 ≤ pre) :
    calculate_friday_clock_out days pre fm w su n =
      some (some ((n.lookup "Friday_start").getD "8:00 AM"), w,
        su ++ ["40 hours reached before Friday this week"], n) ∧
    ("40 hours reached before Friday").data.IsInfix
      ("40 hours reached before Friday this week").data := by
  constructor
  · unfold calculate_friday_clock_out
    rw [hfind]
    have hge : pre ≥ 40 * 60 := by omega
    simp [hge]
  · exact ⟨[], (" this week").data, by decide⟩

/-- Witness for C6: the 44-hour week of the spec (Monday-Thursday 7:00
AM-7:00 PM with 60-minute lunch, Friday start-only at 8:00 AM). -/
theorem friday_projector_forty_reached_witness :
    (2400 ≤ 2640 ∧
      ([(⟨"Monday", "7:00 AM", "7:00 PM", "60"⟩ : DayInput), ⟨"Tuesday", "7:00 AM", "7:00 PM", "60"⟩,
        ⟨"Wednesday", "7:00 AM", "7:00 PM", "60"⟩, ⟨"Thursday", "7:00 AM", "7:00 PM", "60"⟩,
        ⟨"Friday", "8:00", "", ""⟩].find? (fun d => pyLowerStr d.day_name == "friday"))
        = some ⟨"Friday", "8:00", "", ""⟩) ∧
    calculate_friday_clock_out
      [⟨"Monday", "7:00 AM", "7:00 PM", "60"⟩, ⟨"Tuesday", "7:00 AM", "7:00 PM", "60"⟩,
       ⟨"Wednesday", "7:00 AM", "7:00 PM", "60"⟩, ⟨"Thursday", "7:00 AM", "7:00 PM", "60"⟩,
       ⟨"Friday", "8:00", "", ""⟩] 2640 none [] [] [("Friday_start", "8:00 AM")] =
      some (some "8:00 AM", [], ["40 hours reached before Friday this week"],
        [("Friday_start", "8:00 AM")]) ∧
    (calculate_week
      [⟨"Monday", "7:00 AM", "7:00 PM", "60"⟩, ⟨"Tuesday", "7:00 AM", "7:00 PM", "60"⟩,
       ⟨"Wednesday", "7:00 AM", "7:00 PM", "60"⟩, ⟨"Thursday", "7:00 AM", "7:00 PM", "60"⟩,
       ⟨"Friday", "8:00", "", ""⟩]).map (fun r => (r.friday_clock_out, r.successes)) =
      some (some "8:00 AM", ["40 hours reached before Friday this week"]) := by
  refine ⟨⟨by decide, by decide⟩, ?_, by decide⟩
  have h := (friday_projector_forty_reached
    [⟨"Monday", "7:00 AM", "7:00 PM", "60"⟩, ⟨"Tuesday", "7:00 AM", "7:00 PM", "60"⟩,
     ⟨"Wednesday", "7:00 AM", "7:00 PM", "60"⟩, ⟨"Thursday", "7:00 AM", "7:00 PM", "60"⟩,
     ⟨"Friday", "8:00", "", ""⟩] 2640 none [] [] [("Friday_start", "8:00 AM")]
    ⟨"Friday", "8:00", "", ""⟩ (by decide) (by decide)).1
  rw [h]
  decide

/-- C5: for a projection with pre-Friday minutes below 2400, resolved
Friday start `s` and lunch `l` (blank fields defaulting to 480 and 60
respectively) and a blank Friday end, the projected clock-out is the
display conversion of `s + (2400 - pre) + l`. -/
theorem friday_projector_formula (days : List DayInput) (pre : Nat) (fm : Option Nat)
    (w su : List String) (n : List (String × String)) (fd : DayInput) (s l : Nat)
    (hfind : days.find? (fun d => pyLowerStr d.day_name == "friday") = some fd)
    (hpre : pre < 2400)
    (hstart : (stripStr fd.start_time = "" ∧ s = 480) ∨
      parse_time (stripStr fd.start_time) true = some s)
    (hlunch : (stripStr fd.lunch_minutes = "" ∧ l = 60) ∨
      (stripStr fd.lunch_minutes ≠ "" ∧ lunchCheck (stripStr fd.lunch_minutes) = some l))
    (hend : stripStr fd.end_time = "") :
    ∃ w2 n2, calculate_friday_clock_out days pre fm w su n =
      some (some (minutes_to_display (s + (2400 - pre) + l)), w2, su, n2) := by
  have hnpre : ¬ pre ≥ 40 * 60 := by omega
  have hassoc : s + (40 * 60 - pre + l) = s + (2400 - pre) + l := by omega
  rcases hstart with ⟨hb, rfl⟩ | hp
  · rcases hlunch with ⟨hlb, rfl⟩ | ⟨hlnb, hlc⟩
    · simp only [calculate_friday_clock_out, hfind, hnpre, hb, hlb, hend, reduceIte,
        ite_true, ite_false, hassoc]
      exact ⟨_, _, rfl⟩
    · simp only [calculate_friday_clock_out, hfind, hnpre, hb, hlnb, hlc, hend, reduceIte,
        ite_true, ite_false, hassoc]
      exact ⟨_, _, rfl⟩
  · have hsnb : stripStr fd.start_time ≠ "" := by
      intro hc
      rw [hc] at hp
      simp [parse_time] at hp
    rcases hlunch with ⟨hlb, rfl⟩ | ⟨hlnb, hlc⟩
    · simp only [calculate_friday_clock_out, hfind, hnpre, hsnb, hp, hlb, hend, reduceIte,
        ite_true, ite_false, hassoc]
      exact ⟨_, _, rfl⟩
    · simp only [calculate_friday_clock_out, hfind, hnpre, hsnb, hp, hlnb, hlc, hend, reduceIte,
        ite_true, ite_false, hassoc]
      exact ⟨_, _, rfl⟩

/-- Witness for C5: the spec's 32-hour week (four 8:00 AM-5:00 PM days,
Friday start-only at 8:00 AM) projects a "5:00 PM" clock-out. -/
theorem friday_projector_formula_witness :
    (1920 < 2400 ∧ parse_time "8:00" true = some 480) ∧
    (∃ w2 n2, calculate_friday_clock_out
      [⟨"Monday", "8:00 AM", "5:00 PM", "60"⟩, ⟨"Tuesday", "8:00 AM", "5:00 PM", "60"⟩,
       ⟨"Wednesday", "8:00 AM", "5:00 PM", "60"⟩, ⟨"Thursday", "8:00 AM", "5:00 PM", "60"⟩,
       ⟨"Friday", "8:00", "", ""⟩] 1920 none [] [] [] =
      some (some "5:00 PM", w2, [], n2)) ∧
    (calculate_week
      [⟨"Monday", "8:00 AM", "5:00 PM", "60"⟩, ⟨"Tuesday", "8:00 AM", "5:00 PM", "60"⟩,
       ⟨"Wednesday", "8:00 AM", "5:00 PM", "60"⟩, ⟨"Thursday", "8:00 AM", "5:00 PM", "60"⟩,
       ⟨"Friday", "8:00", "", ""⟩]).map (fun r => r.friday_clock_out) = some (some "5:00 PM") := by
  refine ⟨⟨by decide, by decide⟩, ?_, by decide⟩
  obtain ⟨w2, n2, hh⟩ := friday_projector_formula
    [⟨"Monday", "8:00 AM", "5:00 PM", "60"⟩, ⟨"Tuesday", "8:00 AM", "5:00 PM", "60"⟩,
     ⟨"Wednesday", "8:00 AM", "5:00 PM", "60"⟩, ⟨"Thursday", "8:00 AM", "5:00 PM", "60"⟩,
     ⟨"Friday", "8:00", "", ""⟩] 1920 none [] [] [] ⟨"Friday", "8:00", "", ""⟩ 480 60
    (by decide) (by decide) (Or.inr (by decide)) (Or.inl ⟨by decide, rfl⟩) (by decide)
  have hdisp : minutes_to_display (480 + (2400 - 1920) + 60) = "5:00 PM" := by decide
  rw [hdisp] at hh
  exact ⟨w2, n2, hh⟩

/-! Claim C7: the hours-to-40 value -/

theorem pyRound_nonneg (q : ℚ) (h : 0 ≤ q) : 0 ≤ pyRound q := by
  have hf : 0 ≤ ⌊q⌋ := Int.floor_nonneg.mpr h
  simp only [pyRound]
  split_ifs <;> omega

theorem pyRound_nonpos (q : ℚ) (h : q ≤ 0) : pyRound q ≤ 0 := by
  have hf : ⌊q⌋ ≤ 0 := Int.floor_nonpos h
  have hfl : (⌊q⌋ : ℚ) ≤ q := Int.floor_le q
  simp only [pyRound]
  split_ifs with h1 h2 h3
  · exact hf
  · have hc : (⌊q⌋ : ℚ) < 0 := by linarith
    have : ⌊q⌋ < 0 := by exact_mod_cast hc
    omega
  · exact hf
  · have hq : (1 : ℚ) / 2 ≤ q - (⌊q⌋ : ℚ) := le_of_not_lt h1
    have hc : (⌊q⌋ : ℚ) < 0 := by linarith
    have : ⌊q⌋ < 0 := by exact_mod_cast hc
    omega

theorem round_to_quarter_nonneg (q : ℚ) (h : 0 ≤ q) : 0 ≤ round_to_quarter q := by
  have h1 : 0 ≤ pyRound (q * 4) := pyRound_nonneg _ (by linarith)
  have h2 : (0 : ℚ) ≤ (pyRound (q * 4) : ℚ) / 4 := by
    apply div_nonneg _ (by norm_num)
    exact_mod_cast h1
  have h3 : 0 ≤ pyRound ((pyRound (q * 4) : ℚ) / 4 * 100) := pyRound_nonneg _ (by linarith)
  unfold round_to_quarter
  apply div_nonneg _ (by norm_num)
  exact_mod_cast h3

theorem round_to_quarter_nonpos (q : ℚ) (h : q ≤ 0) : round_to_quarter q ≤ 0 := by
  have h1 : pyRound (q * 4) ≤ 0 := pyRound_nonpos _ (by linarith)
  have h2 : (pyRound (q * 4) : ℚ) / 4 ≤ 0 := by
    apply div_nonpos_of_nonpos_of_nonneg _ (by norm_num)
    exact_mod_cast h1
  have h3 : pyRound ((pyRound (q * 4) : ℚ) / 4 * 100) ≤ 0 := pyRound_nonpos _ (by linarith)
  unfold round_to_quarter
  apply div_nonpos_of_nonpos_of_nonneg _ (by norm_num)
  exact_mod_cast h3

/-- C7 amended: on an error-free week, `hours_to_40` equals
`roundToQuarter((2400 - totalMinutes) / 60)`; the value is signed but its
quarter rounding only guarantees non-negativity below 2400 total minutes
and non-positivity above (totals within 7 minutes of 2400 round to 0). -/
theorem hours_to_40_signed (days : List DayInput) (r : CalculationResult)
    (h : calculate_week days = some r) (he : r.errors = []) :
    r.hours_to_40 = some (round_to_quarter ((2400 - (weekTotalMinutes days : ℚ)) / 60)) ∧
    (weekTotalMinutes days ≤ 2400 →
      0 ≤ round_to_quarter ((2400 - (weekTotalMinutes days : ℚ)) / 60)) ∧
    (2400 ≤ weekTotalMinutes days →
      round_to_quarter ((2400 - (weekTotalMinutes days : ℚ)) / 60) ≤ 0) := by
  refine ⟨?_, fun hle => ?_, fun hge => ?_⟩
  · simp only [calculate_week] at h
    by_cases hE : (processAll initState days).errors = []
    · rw [if_neg (by simpa using hE)] at h
      cases hf : calculate_friday_clock_out days
          ((((processAll initState days).daily.filter
            (fun p => !(pyLowerStr p.1 == "friday"))).map (fun p => p.2)).sum)
          ((processAll initState days).daily.lookup "Friday")
          (processAll initState days).warnings [] (processAll initState days).normalized with
      | none => rw [hf] at h; exact absurd h (by simp)
      | some out =>
        obtain ⟨fco, w2, s2, n2⟩ := out
        rw [hf] at h
        have hr := (Option.some.inj h).symm
        rw [hr]
        simp only [weekTotalMinutes]
        norm_num [Function.comp_def]
    · rw [if_pos hE] at h
      have hr := (Option.some.inj h).symm
      rw [hr] at he
      exact absurd he hE
  · apply round_to_quarter_nonneg
    apply div_nonneg _ (by norm_num)
    have : (weekTotalMinutes days : ℚ) ≤ 2400 := by exact_mod_cast hle
    linarith
  · apply round_to_quarter_nonpos
    apply div_nonpos_of_nonpos_of_nonneg _ (by norm_num)
    have : (2400 : ℚ) ≤ (weekTotalMinutes days : ℚ) := by exact_mod_cast hge
    linarith

/-- Counterexample to C7 as stated: an error-free week totalling 2399
worked minutes (one minute short of 40 hours) has `hours_to_40 = 0`, which
is not positive. -/
theorem hours_to_40_signed_cex :
    (calculate_week [⟨"Monday", "8:00", "4:00", "1"⟩, ⟨"Tuesday", "", "", ""⟩,
      ⟨"Wednesday", "", "", ""⟩, ⟨"Thursday", "", "", ""⟩, ⟨"Friday", "", "", ""⟩]).map
      (fun r => (r.errors, r.hours_to_40)) = some ([], some 0) ∧
    weekTotalMinutes [⟨"Monday", "8:00", "4:00", "1"⟩, ⟨"Tuesday", "", "", ""⟩,
      ⟨"Wednesday", "", "", ""⟩, ⟨"Thursday", "", "", ""⟩, ⟨"Friday", "", "", ""⟩] = 2399 ∧
    (2399 : Nat) < 2400 := by decide

/-- Witness for C7 amended: the all-blank week (2400 assumed minutes). -/
theorem hours_to_40_signed_witness :
    (calculate_week [⟨"Monday", "", "", ""⟩, ⟨"Tuesday", "", "", ""⟩, ⟨"Wednesday", "", "", ""⟩,
      ⟨"Thursday", "", "", ""⟩, ⟨"Friday", "", "", ""⟩]).map
      (fun r => (r.errors, r.hours_to_40)) = some ([], some 0) ∧
    (0 : ℚ) = round_to_quarter ((2400 - (weekTotalMinutes
      [⟨"Monday", "", "", ""⟩, ⟨"Tuesday", "", "", ""⟩, ⟨"Wednesday", "", "", ""⟩,
       ⟨"Thursday", "", "", ""⟩, ⟨"Friday", "", "", ""⟩] : ℚ)) / 60) := by
  have hm : (calculate_week [⟨"Monday", "", "", ""⟩, ⟨"Tuesday", "", "", ""⟩,
      ⟨"Wednesday", "", "", ""⟩, ⟨"Thursday", "", "", ""⟩, ⟨"Friday", "", "", ""⟩]).map
      (fun r => (r.errors, r.hours_to_40)) = some ([], some 0) := by decide
  refine ⟨hm, ?_⟩
  cases hcw : calculate_week [⟨"Monday", "", "", ""⟩, ⟨"Tuesday", "", "", ""⟩,
      ⟨"Wednesday", "", "", ""⟩, ⟨"Thursday", "", "", ""⟩, ⟨"Friday", "", "", ""⟩] with
  | none => rw [hcw] at hm; exact absurd hm (by simp)
  | some r =>
    rw [hcw] at hm
    simp only [Option.map_some', Option.some.injEq, Prod.mk.injEq] at hm
    obtain ⟨herr, h40⟩ := hm
    have h1 := (hours_to_40_signed _ r hcw herr).1
    rw [h40] at h1
    exact Option.some.inj h1

/-! Claim C9: daily-hours keys -/

theorem lookup_map_replace (m : List (String × α)) (k0 k : String) (v : α) (h : k ≠ k0) :
    ((m.map (fun p => if p.1 = k0 then (k0, v) else p)).lookup k) = m.lookup k := by
  induction m with
  | nil => rfl
  | cons a t ih =>
    obtain ⟨a1, a2⟩ := a
    by_cases ha : a1 = k0
    · subst ha
      simp only [List.map_cons, ite_true, reduceIte, List.lookup_cons,
        beq_false_of_ne h, ih]
    · simp only [List.map_cons, ite_false, reduceIte, if_neg ha, List.lookup_cons]
      by_cases hk : k = a1
      · simp [hk]
      · simp [beq_false_of_ne hk, ih]

theorem lookup_append_single_ne (m : List (String × α)) (k0 k : String) (v : α) (h : k ≠ k0) :
    ((m ++ [(k0, v)]).lookup k) = m.lookup k := by
  induction m with
  | nil =>
    simp [List.lookup_cons, beq_false_of_ne h]
  | cons a t ih =>
    obtain ⟨a1, a2⟩ := a
    by_cases hk : k = a1
    · simp [List.lookup_cons, hk]
    · simp [List.lookup_cons, beq_false_of_ne hk, ih]

theorem lookup_dictInsert_ne (m : List (String × α)) (k0 k : String) (v : α) (h : k ≠ k0) :
    ((dictInsert m k0 v).lookup k) = m.lookup k := by
  unfold dictInsert
  split
  · exact lookup_map_replace m k0 k v h
  · exact lookup_append_single_ne m k0 k v h

theorem lookup_dictInsert_isSome (m : List (String × α)) (k0 k : String) (v : α)
    (h : ((dictInsert m k0 v).lookup k).isSome = true) :
    k = k0 ∨ (m.lookup k).isSome = true := by
  by_cases hk : k = k0
  · exact Or.inl hk
  · right
    rwa [lookup_dictInsert_ne m k0 k v hk] at h

theorem lookup_map_pair_isSome (m : List (String × Nat)) (f : String × Nat → ℚ) (k : String) :
    ((m.map (fun p => (p.1, f p))).lookup k).isSome = ((m.lookup k).isSome) := by
  induction m with
  | nil => rfl
  | cons a t ih =>
    obtain ⟨a1, a2⟩ := a
    by_cases hk : k = a1
    · simp [List.lookup_cons, hk]
    · simp [List.lookup_cons, beq_false_of_ne hk, ih]

theorem processAll_daily_isSome (ds : List DayInput) (st : PassState) (k : String)
    (h : ((processAll st ds).daily.lookup k).isSome = true) :
    ((st.daily.lookup k).isSome = true) ∨
      ∃ d ∈ ds, d.day_name = k ∧ (process_day d).minutes.isSome = true := by
  induction ds generalizing st with
  | nil => exact Or.inl h
  | cons d t ih =>
    rcases ih (stepDay st d) h with hst | ⟨d2, hmem, hname, hmin⟩
    · cases hm : (process_day d).minutes with
      | none =>
        simp only [stepDay, hm] at hst
        exact Or.inl hst
      | some m =>
        simp only [stepDay, hm] at hst
        rcases lookup_dictInsert_isSome _ _ _ _ hst with hk | hsome
        · exact Or.inr ⟨d, List.mem_cons_self d t, hk.symm, by rw [hm]; rfl⟩
        · exact Or.inl hsome
    · exact Or.inr ⟨d2, List.mem_cons_of_mem d hmem, hname, hmin⟩

theorem processAll_daily_none (ds : List DayInput) (st : PassState) (k : String)
    (h0 : st.daily.lookup k = none)
    (hall : ∀ d ∈ ds, d.day_name = k → (process_day d).minutes = none) :
    (processAll st ds).daily.lookup k = none := by
  induction ds generalizing st with
  | nil => exact h0
  | cons d t ih =>
    apply ih
    · cases hm : (process_day d).minutes with
      | none => simp only [stepDay, hm]; exact h0
      | some m =>
        simp only [stepDay, hm]
        by_cases hk : d.day_name = k
        · exact absurd (hall d (List.mem_cons_self d t) hk) (by rw [hm]; simp)
        · rw [lookup_dictInsert_ne _ _ _ _ (fun hc => hk hc.symm)]
          exact h0
    · exact fun d2 hmem => hall d2 (List.mem_cons_of_mem d hmem)

theorem lookup_map_pair_none (m : List (String × Nat)) (f : String × Nat → ℚ) (k : String)
    (h : m.lookup k = none) : ((m.map (fun p => (p.1, f p))).lookup k) = none := by
  have hs := lookup_map_pair_isSome m f k
  rw [h] at hs
  cases he : (m.map (fun p => (p.1, f p))).lookup k with
  | none => rfl
  | some v => rw [he] at hs; simp at hs

theorem process_day_friday_inprogress (d : DayInput) (hf : pyLowerStr d.day_name = "friday")
    (hs : stripStr d.start_time ≠ "") (he : stripStr d.end_time = "") :
    (process_day d).minutes = none := by
  unfold process_day
  rw [if_neg (by simp [hs]), if_pos ⟨hs, he⟩, if_neg (by simp [hf])]
  cases parse_time (stripStr d.start_time) true with
  | none => rfl
  | some sm =>
    dsimp only
    by_cases hl : stripStr d.lunch_minutes = ""
    · rw [if_pos hl]
    · rw [if_neg hl]
      cases lunchCheck (stripStr d.lunch_minutes) <;> rfl

/-- C9 amended: `daily_hours` only carries keys of days whose worked
minutes were determinable, and it never carries the key of a Friday left
in the start-only "in progress" state provided no other input day bears
that same `day_name` (duplicate day names would let a different day
populate the key, since the per-day minutes dictionary is keyed by
caller-supplied names). -/
theorem daily_hours_keys (days : List DayInput) (r : CalculationResult)
    (h : calculate_week days = some r) :
    (∀ k, ((r.daily_hours.lookup k).isSome = true) →
      ∃ d ∈ days, d.day_name = k ∧ (process_day d).minutes.isSome = true) ∧
    (∀ d ∈ days, pyLowerStr d.day_name = "friday" → stripStr d.start_time ≠ "" →
      stripStr d.end_time = "" → (∀ d2 ∈ days, d2.day_name = d.day_name → d2 = d) →
      r.daily_hours.lookup d.day_name = none) := by
  simp only [calculate_week] at h
  by_cases hE : (processAll initState days).errors = []
  · rw [if_neg (by simpa using hE)] at h
    cases hf : calculate_friday_clock_out days
        ((((processAll initState days).daily.filter
          (fun p => !(pyLowerStr p.1 == "friday"))).map (fun p => p.2)).sum)
        ((processAll initState days).daily.lookup "Friday")
        (processAll initState days).warnings [] (processAll initState days).normalized with
    | none => rw [hf] at h; exact absurd h (by simp)
    | some out =>
      obtain ⟨fco, w2, s2, n2⟩ := out
      rw [hf] at h
      have hr := (Option.some.inj h).symm
      subst hr
      constructor
      · intro k hk
        simp only at hk
        rw [lookup_map_pair_isSome] at hk
        rcases processAll_daily_isSome days initState k hk with h0 | hex
        · simp [initState] at h0
        · exact hex
      · intro d hmem hfri hstart hend hdist
        simp only
        apply lookup_map_pair_none
        apply processAll_daily_none days initState d.day_name rfl
        intro d2 hmem2 hname2
        rw [hdist d2 hmem2 hname2]
        exact process_day_friday_inprogress d hfri hstart hend
  · rw [if_pos hE] at h
    have hr := (Option.some.inj h).symm
    subst hr
    constructor
    · intro k hk
      simp at hk
    · intro d _ _ _ _ _
      rfl

/-- Counterexample to C9 as stated: two input days named "Friday", the
first left in the start-only state, the second fully blank; the blank one
populates `daily_hours["Friday"] = 8` even though a Friday in the
"in progress" state is present. -/
theorem daily_hours_keys_cex :
    (process_day ⟨"Friday", "8:00", "", ""⟩).minutes = none ∧
    (calculate_week [⟨"Friday", "8:00", "", ""⟩, ⟨"Friday", "", "", ""⟩, ⟨"Monday", "", "", ""⟩,
      ⟨"Tuesday", "", "", ""⟩, ⟨"Wednesday", "", "", ""⟩]).map
      (fun r => (r.errors, r.daily_hours.lookup "Friday")) = some ([], some 8) := by decide

/-- Witness for C9 amended: in the spec's 32-hour week the in-progress
Friday has no `daily_hours` key. -/
theorem daily_hours_keys_witness :
    (calculate_week [⟨"Monday", "8:00 AM", "5:00 PM", "60"⟩, ⟨"Tuesday", "8:00 AM", "5:00 PM", "60"⟩,
      ⟨"Wednesday", "8:00 AM", "5:00 PM", "60"⟩, ⟨"Thursday", "8:00 AM", "5:00 PM", "60"⟩,
      ⟨"Friday", "8:00", "", ""⟩]).map (fun r => r.daily_hours.lookup "Friday") = some none := by
  cases hcw : calculate_week [⟨"Monday", "8:00 AM", "5:00 PM", "60"⟩,
      ⟨"Tuesday", "8:00 AM", "5:00 PM", "60"⟩, ⟨"Wednesday", "8:00 AM", "5:00 PM", "60"⟩,
      ⟨"Thursday", "8:00 AM", "5:00 PM", "60"⟩, ⟨"Friday", "8:00", "", ""⟩] with
  | none => exact absurd hcw (by decide)
  | some r =>
    simp only [Option.map_some', Option.some.injEq]
    exact (daily_hours_keys _ r hcw).2 ⟨"Friday", "8:00", "", ""⟩ (by decide) (by decide)
      (by decide) (by decide) (by decide)

/-! Claim C4: the both-present day case -/

/-- C4: for a day whose start and end fields are both non-blank and parse
to `sm` and `em` minutes: `em ≤ sm` errors with "end time is before start
time" tagged on the end field and yields no worked minutes; otherwise,
with the lunch resolved to 60 minutes plus a warning when blank (else
parsed as a non-negative integer or the day errors), a resolved lunch
greater than `em - sm` errors with "lunch exceeds shift length" on the
lunch field, and otherwise the worked minutes equal `(em - sm) - lunch`. -/
theorem process_day_both_present (d : DayInput) (sm em : Nat)
    (hs : stripStr d.start_time ≠ "") (he : stripStr d.end_time ≠ "")
    (hps : parse_time (stripStr d.start_time) true = some sm)
    (hpe : parse_time (stripStr d.end_time) false = some em) :
    (em ≤ sm → process_day d = ⟨none, [d.day_name ++ ": end time is before start time"], [],
      [(d.day_name ++ "_start", minutes_to_display sm),
       (d.day_name ++ "_end", minutes_to_display em)],
      [(d.day_name ++ "_end", "End time before start time")]⟩) ∧
    (sm < em → stripStr d.lunch_minutes = "" → 60 ≤ em - sm →
      process_day d = ⟨some (em - sm - 60), [],
        [d.day_name ++ ": lunch assumed to be 60 minutes"],
        [(d.day_name ++ "_start", minutes_to_display sm),
         (d.day_name ++ "_end", minutes_to_display em)], []⟩) ∧
    (sm < em → stripStr d.lunch_minutes = "" → em - sm < 60 →
      process_day d = ⟨none, [d.day_name ++ ": lunch exceeds shift length"],
        [d.day_name ++ ": lunch assumed to be 60 minutes"],
        [(d.day_name ++ "_start", minutes_to_display sm),
         (d.day_name ++ "_end", minutes_to_display em)],
        [(d.day_name ++ "_lunch", "Lunch exceeds shift length")]⟩) ∧
    (sm < em → stripStr d.lunch_minutes ≠ "" → lunchCheck (stripStr d.lunch_minutes) = none →
      process_day d = ⟨none, [d.day_name ++ ": invalid lunch duration"], [],
        [(d.day_name ++ "_start", minutes_to_display sm),
         (d.day_name ++ "_end", minutes_to_display em)],
        [(d.day_name ++ "_lunch", "Invalid lunch duration")]⟩) ∧
    (∀ L, sm < em → lunchCheck (stripStr d.lunch_minutes) = some L → em - sm < L →
      process_day d = ⟨none, [d.day_name ++ ": lunch exceeds shift length"], [],
        [(d.day_name ++ "_start", minutes_to_display sm),
         (d.day_name ++ "_end", minutes_to_display em)],
        [(d.day_name ++ "_lunch", "Lunch exceeds shift length")]⟩) ∧
    (∀ L, sm < em → lunchCheck (stripStr d.lunch_minutes) = some L → L ≤ em - sm →
      process_day d = ⟨some (em - sm - L), [], [],
        [(d.day_name ++ "_start", minutes_to_display sm),
         (d.day_name ++ "_end", minutes_to_display em)], []⟩) := by
  have hnc1 : ¬(stripStr d.start_time = "" ∧ stripStr d.end_time = "") := by simp [hs]
  have hnc2 : ¬(stripStr d.start_time ≠ "" ∧ stripStr d.end_time = "") := by simp [he]
  have hnc3 : ¬(stripStr d.start_time = "" ∧ stripStr d.end_time ≠ "") := by simp [hs]
  have hblank : ∀ L, lunchCheck (stripStr d.lunch_minutes) = some L →
      stripStr d.lunch_minutes ≠ "" := by
    intro L hL hc
    rw [hc] at hL
    exact Option.noConfusion ((rfl : lunchCheck "" = none) ▸ hL)
  refine ⟨fun hle => ?_, fun hlt hbl hge => ?_, fun hlt hbl hlt2 => ?_,
    fun hlt hnbl hlc => ?_, fun L hlt hL hgt => ?_, fun L hlt hL hle2 => ?_⟩ <;>
    unfold process_day <;>
    rw [if_neg hnc1, if_neg hnc2, if_neg hnc3, hps, hpe] <;>
    dsimp only
  · rw [if_pos hle]
  · rw [if_neg (by omega : ¬ em ≤ sm), if_pos hbl, if_neg (by omega : ¬ 60 > em - sm)]
  · rw [if_neg (by omega : ¬ em ≤ sm), if_pos hbl, if_pos (by omega : 60 > em - sm)]
  · rw [if_neg (by omega : ¬ em ≤ sm), if_neg hnbl, hlc]
  · rw [if_neg (by omega : ¬ em ≤ sm), if_neg (hblank L hL), hL]
    dsimp only
    rw [if_pos (by omega : L > em - sm)]
  · rw [if_neg (by omega : ¬ em ≤ sm), if_neg (hblank L hL), hL]
    dsimp only
    rw [if_neg (by omega : ¬ L > em - sm)]

/-- Witness for C4: the spec's lunch-exceeds example, an 8:00 AM-9:00 AM
shift with a 120-minute lunch. -/
theorem process_day_both_present_witness :
    (parse_time "8:00 AM" true = some 480 ∧ parse_time "9:00 AM" false = some 540 ∧
      lunchCheck "120" = some 120 ∧ (540 : Nat) - 480 < 120) ∧
    process_day ⟨"Monday", "8:00 AM", "9:00 AM", "120"⟩ =
      ⟨none, ["Monday: lunch exceeds shift length"], [],
        [("Monday_start", "8:00 AM"), ("Monday_end", "9:00 AM")],
        [("Monday_lunch", "Lunch exceeds shift length")]⟩ := by
  refine ⟨by decide, ?_⟩
  have h := (process_day_both_present ⟨"Monday", "8:00 AM", "9:00 AM", "120"⟩ 480 540
    (by decide) (by decide) (by decide) (by decide)).2.2.2.2.1 120 (by decide) (by decide)
    (by decide)
  rw [h]
  decide

/-! Claim C1: error gating in calculate_week -/

theorem processAll_errors_nil (ds : List DayInput) (st : PassState)
    (h : (processAll st ds).errors = []) :
    st.errors = [] ∧ ∀ d ∈ ds, (process_day d).errors = [] := by
  induction ds generalizing st with
  | nil => exact ⟨h, by simp⟩
  | cons d t ih =>
    obtain ⟨hs, hall⟩ := ih (stepDay st d) h
    simp only [stepDay] at hs
    obtain ⟨h1, h2⟩ := List.append_eq_nil.mp hs
    refine ⟨h1, fun d2 hmem => ?_⟩
    rcases List.mem_cons.mp hmem with rfl | hmem2
    · exact h2
    · exact hall d2 hmem2

theorem process_day_no_errors (d : DayInput) (h : (process_day d).errors = []) :
    (stripStr d.start_time ≠ "" → (parse_time (stripStr d.start_time) true).isSome = true) ∧
    (stripStr d.lunch_minutes ≠ "" → ∃ L, lunchCheck (stripStr d.lunch_minutes) = some L) := by
  unfold process_day at h
  by_cases hc1 : stripStr d.start_time = "" ∧ stripStr d.end_time = ""
  · rw [if_pos hc1] at h
    refine ⟨fun hs => absurd hc1.1 hs, fun hl => ?_⟩
    rw [if_pos hl] at h
    cases hlc : lunchCheck (stripStr d.lunch_minutes) with
    | none => rw [hlc] at h; simp at h
    | some L => exact ⟨L, rfl⟩
  · by_cases hc2 : stripStr d.start_time ≠ "" ∧ stripStr d.end_time = ""
    · rw [if_neg hc1, if_pos hc2] at h
      by_cases hfri : pyLowerStr d.day_name ≠ "friday"
      · rw [if_pos hfri] at h
        cases hp : parse_time (stripStr d.start_time) true with
        | none => rw [hp] at h; simp at h
        | some sm =>
          rw [hp] at h
          dsimp only at h
          refine ⟨fun _ => rfl, fun hl => ?_⟩
          rw [if_pos hl] at h
          cases hlc : lunchCheck (stripStr d.lunch_minutes) with
          | none => rw [hlc] at h; simp at h
          | some L => exact ⟨L, rfl⟩
      · rw [if_neg hfri] at h
        cases hp : parse_time (stripStr d.start_time) true with
        | none => rw [hp] at h; simp at h
        | some sm =>
          rw [hp] at h
          dsimp only at h
          refine ⟨fun _ => rfl, fun hl => ?_⟩
          rw [if_neg hl] at h
          cases hlc : lunchCheck (stripStr d.lunch_minutes) with
          | none => rw [hlc] at h; simp at h
          | some L => exact ⟨L, rfl⟩
    · by_cases hc3 : stripStr d.start_time = "" ∧ stripStr d.end_time ≠ ""
      · rw [if_neg hc1, if_neg hc2, if_pos hc3] at h
        refine ⟨fun hs => absurd hc3.1 hs, fun hl => ?_⟩
        cases hpe : parse_time (stripStr d.end_time) false with
        | none => rw [hpe] at h; simp at h
        | some em =>
          rw [hpe] at h
          dsimp only at h
          rw [if_pos hl] at h
          cases hlc : lunchCheck (stripStr d.lunch_minutes) with
          | none => rw [hlc] at h; simp at h
          | some L => exact ⟨L, rfl⟩
      · rw [if_neg hc1, if_neg hc2, if_neg hc3] at h
        cases hps : parse_time (stripStr d.start_time) true with
        | none =>
          rw [hps] at h
          cases hpe : parse_time (stripStr d.end_time) false with
          | none => rw [hpe] at h; simp at h
          | some em => rw [hpe] at h; simp at h
        | some sm =>
          rw [hps] at h
          cases hpe : parse_time (stripStr d.end_time) false with
          | none => rw [hpe] at h; simp at h
          | some em =>
            rw [hpe] at h
            dsimp only at h
            refine ⟨fun _ => rfl, fun hl => ?_⟩
            by_cases hle : em ≤ sm
            · rw [if_pos hle] at h; simp at h
            · rw [if_neg hle] at h
              rw [if_neg hl] at h
              cases hlc : lunchCheck (stripStr d.lunch_minutes) with
              | none => rw [hlc] at h; simp at h
              | some L => exact ⟨L, rfl⟩

theorem projector_isSome (days : List DayInput) (pre : Nat) (fm : Option Nat)
    (w su : List String) (n : List (String × String)) (fd : DayInput)
    (hfind : days.find? (fun d => pyLowerStr d.day_name == "friday") = some fd)
    (hok1 : stripStr fd.start_time ≠ "" → (parse_time (stripStr fd.start_time) true).isSome = true)
    (hok2 : stripStr fd.lunch_minutes ≠ "" → ∃ L, lunchCheck (stripStr fd.lunch_minutes) = some L) :
    ∃ str w2 s2 n2, calculate_friday_clock_out days pre fm w su n = some (some str, w2, s2, n2) := by
  simp only [calculate_friday_clock_out, hfind]
  by_cases hpre : pre ≥ 40 * 60
  · rw [if_pos hpre]
    exact ⟨_, _, _, _, rfl⟩
  · rw [if_neg hpre]
    have hstep : ∀ sm nrm wrn,
        (∃ str w2 s2 n2,
          (match (if stripStr fd.lunch_minutes = "" then
              some (60, if "Friday: lunch assumed to be 60 minutes" ∈ wrn then wrn
                else wrn ++ ["Friday: lunch assumed to be 60 minutes"])
            else
              match lunchCheck (stripStr fd.lunch_minutes) with
              | none => none
              | some L => some (L, wrn)) with
          | none => some (none, wrn, su, nrm)
          | some (lunch_minutes, warn2) =>
            match (if stripStr fd.end_time = "" then none
              else match parse_time (stripStr fd.end_time) false with
                | none => none
                | some em => some (minutes_to_display em)) with
            | some ed => some (some ed, warn2, su, dictInsert nrm "Friday_end" ed)
            | none => some (some (minutes_to_display
                (sm + (40 * 60 - pre + lunch_minutes))), warn2, su, nrm)) =
          some (some str, w2, s2, n2)) := by
      intro sm nrm wrn
      by_cases hl : stripStr fd.lunch_minutes = ""
      · rw [if_pos hl]
        dsimp only
        cases (if stripStr fd.end_time = "" then (none : Option String)
            else match parse_time (stripStr fd.end_time) false with
              | none => none
              | some em => some (minutes_to_display em)) with
        | none => exact ⟨_, _, _, _, rfl⟩
        | some ed => exact ⟨_, _, _, _, rfl⟩
      · rw [if_neg hl]
        obtain ⟨L, hL⟩ := hok2 hl
        rw [hL]
        dsimp only
        cases (if stripStr fd.end_time = "" then (none : Option String)
            else match parse_time (stripStr fd.end_time) false with
              | none => none
              | some em => some (minutes_to_display em)) with
        | none => exact ⟨_, _, _, _, rfl⟩
        | some ed => exact ⟨_, _, _, _, rfl⟩
    by_cases hs : stripStr fd.start_time = ""
    · rw [if_pos hs]
      dsimp only
      exact hstep (8 * 60) _ _
    · rw [if_neg hs]
      obtain ⟨sm, hsm⟩ := Option.isSome_iff_exists.mp (hok1 hs)
      rw [hsm]
      dsimp only
      exact hstep sm _ _

/-- C1 amended: for every list of five day inputs at least one of which is
named Friday (case-insensitively), `calculate_week` returns a result, and:
when `errors` is non-empty all aggregate fields are absent and
`daily_hours` is empty while the collected errors, warnings, successes and
normalized values are carried through unchanged; when `errors` is empty
the three aggregate fields are all populated. (Without a Friday entry an
error-free week raises `StopIteration` instead of returning.) -/
theorem calculate_week_errors_iff (days : List DayInput)
    (hlen : days.length = 5)
    (hfri : ∃ d ∈ days, pyLowerStr d.day_name = "friday") :
    ∃ r, calculate_week days = some r ∧
      (r.errors ≠ [] →
        r.total_hours = none ∧ r.hours_to_40 = none ∧ r.friday_clock_out = none ∧
        r.daily_hours = [] ∧
        r.errors = (processAll initState days).errors ∧
        r.warnings = (processAll initState days).warnings ∧
        r.successes = [] ∧
        r.normalized_times = (processAll initState days).normalized ∧
        r.field_errors = (processAll initState days).field_errors) ∧
      (r.errors = [] →
        r.total_hours ≠ none ∧ r.hours_to_40 ≠ none ∧ r.friday_clock_out ≠ none) := by
  by_cases hE : (processAll initState days).errors = []
  · obtain ⟨fd, hfd⟩ : ∃ fd,
        days.find? (fun d => pyLowerStr d.day_name == "friday") = some fd := by
      rw [← Option.isSome_iff_exists, List.find?_isSome]
      obtain ⟨d, hmem, hname⟩ := hfri
      exact ⟨d, hmem, by simp [hname]⟩
    have hmemfd := List.mem_of_find?_eq_some hfd
    have hdok := process_day_no_errors fd ((processAll_errors_nil days initState hE).2 fd hmemfd)
    obtain ⟨str, w2, s2, n2, hproj⟩ := projector_isSome days
      ((((processAll initState days).daily.filter
        (fun p => !(pyLowerStr p.1 == "friday"))).map (fun p => p.2)).sum)
      ((processAll initState days).daily.lookup "Friday")
      (processAll initState days).warnings [] (processAll initState days).normalized
      fd hfd hdok.1 hdok.2
    simp only [calculate_week]
    rw [if_neg (by simpa using hE), hproj]
    dsimp only
    refine ⟨_, rfl, fun hne => ?_, fun _ => ?_⟩
    · exact absurd hE hne
    · exact ⟨by simp, by simp, by simp⟩
  · simp only [calculate_week]
    rw [if_pos hE]
    refine ⟨_, rfl, fun _ => ?_, fun hemp => ?_⟩
    · exact ⟨rfl, rfl, rfl, rfl, rfl, rfl, rfl, rfl, rfl⟩
    · exact absurd hemp hE

/-- Counterexample to C1 as stated: five blank days none of which is named
Friday produce no errors, but `calculate_week` then raises `StopIteration`
from `next(...)` (modelled as `none`) instead of returning a populated
result. -/
theorem calculate_week_errors_iff_cex :
    (∀ d ∈ [(⟨"Monday", "", "", ""⟩ : DayInput), ⟨"Monday", "", "", ""⟩, ⟨"Monday", "", "", ""⟩,
      ⟨"Monday", "", "", ""⟩, ⟨"Monday", "", "", ""⟩], (process_day d).errors = []) ∧
    calculate_week [⟨"Monday", "", "", ""⟩, ⟨"Monday", "", "", ""⟩, ⟨"Monday", "", "", ""⟩,
      ⟨"Monday", "", "", ""⟩, ⟨"Monday", "", "", ""⟩] = none := by decide

/-- Witness for C1 amended: a week whose Monday start is invalid gets its
aggregate fields suppressed while the error list is preserved. -/
theorem calculate_week_errors_iff_witness :
    ([(⟨"Monday", "25:00", "", ""⟩ : DayInput), ⟨"Tuesday", "", "", ""⟩, ⟨"Wednesday", "", "", ""⟩,
      ⟨"Thursday", "", "", ""⟩, ⟨"Friday", "", "", ""⟩].length = 5 ∧
      pyLowerStr "Friday" = "friday") ∧
    (∃ r, calculate_week [⟨"Monday", "25:00", "", ""⟩, ⟨"Tuesday", "", "", ""⟩,
      ⟨"Wednesday", "", "", ""⟩, ⟨"Thursday", "", "", ""⟩, ⟨"Friday", "", "", ""⟩] = some r ∧
      r.errors ≠ [] ∧ r.total_hours = none ∧ r.hours_to_40 = none ∧
      r.friday_clock_out = none ∧ r.daily_hours = []) := by
  refine ⟨⟨by decide, by decide⟩, ?_⟩
  obtain ⟨r, hcw, himp, _⟩ := calculate_week_errors_iff
    [⟨"Monday", "25:00", "", ""⟩, ⟨"Tuesday", "", "", ""⟩, ⟨"Wednesday", "", "", ""⟩,
     ⟨"Thursday", "", "", ""⟩, ⟨"Friday", "", "", ""⟩] (by decide)
    ⟨⟨"Friday", "", "", ""⟩, by decide, by decide⟩
  have hx : (calculate_week [⟨"Monday", "25:00", "", ""⟩, ⟨"Tuesday", "", "", ""⟩,
      ⟨"Wednesday", "", "", ""⟩, ⟨"Thursday", "", "", ""⟩, ⟨"Friday", "", "", ""⟩]).map
      (fun x => x.errors.isEmpty) = some false := by decide
  rw [hcw] at hx
  simp only [Option.map_some', Option.some.injEq] at hx
  have herr : r.errors ≠ [] := by
    intro hc
    rw [hc] at hx
    simp at hx
  obtain ⟨h1, h2, h3, h4, _⟩ := himp herr
  exact ⟨r, hcw, herr, h1, h2, h3, h4⟩

/-! Claim C3: the accepted grammar -/

theorem takeDigits2_spec (cs : List Char) :
    (takeDigits2 cs).1 ++ (takeDigits2 cs).2 = cs ∧
    (∀ x ∈ (takeDigits2 cs).1, x.isDigit = true) ∧
    (takeDigits2 cs).1.length ≤ 2 ∧
    ((takeDigits2 cs).1.length = 2 ∨
      ∀ x, (takeDigits2 cs).2.head? = some x → x.isDigit = false) := by
  match cs with
  | [] => simp [takeDigits2]
  | [c] =>
    by_cases hc : c.isDigit = true <;>
      simp [takeDigits2, hc]
  | c1 :: c2 :: rest =>
    by_cases h1 : c1.isDigit = true <;> by_cases h2 : c2.isDigit = true <;>
      simp [takeDigits2, h1, h2]

theorem takeDigits2_build (h t : List Char) (hd : ∀ x ∈ h, x.isDigit = true)
    (hl : h.length ≤ 2)
    (hg : h.length = 2 ∨ ∀ x, t.head? = some x → x.isDigit = false) :
    takeDigits2 (h ++ t) = (h, t) := by
  match h with
  | [] =>
    have hhead : ∀ x, t.head? = some x → x.isDigit = false := by
      rcases hg with hg | hg
      · simp at hg
      · exact hg
    match t with
    | [] => rfl
    | [x] => simp [takeDigits2, hhead x rfl]
    | x :: y :: t2 => simp [takeDigits2, hhead x rfl]
  | [d] =>
    have hdd : d.isDigit = true := hd d (by simp)
    match t with
    | [] => simp [takeDigits2, hdd]
    | x :: t2 =>
      have hx : x.isDigit = false := by
        rcases hg with hg | hg
        · simp at hg
        · exact hg x rfl
      simp [takeDigits2, hdd, hx]
  | [d1, d2] =>
    have h1 : d1.isDigit = true := hd d1 (by simp)
    have h2 : d2.isDigit = true := hd d2 (by simp)
    simp [takeDigits2, h1, h2]
  | a :: b :: c :: h2 => simp at hl

theorem dropWhile_append_of (w p : List Char) (hw : ∀ x ∈ w, pyIsSpace x = true)
    (hp : ∀ x, p.head? = some x → pyIsSpace x = false) :
    (w ++ p).dropWhile pyIsSpace = p := by
  induction w with
  | nil =>
    cases p with
    | nil => rfl
    | cons x t =>
      have hx : ¬ pyIsSpace x = true := by simp [hp x rfl]
      simp only [List.nil_append]
      rw [List.dropWhile_cons_of_neg hx]
  | cons a t ih =>
    simp only [List.cons_append]
    rw [List.dropWhile_cons_of_pos (hw a (by simp))]
    exact ih (fun x hx => hw x (by simp [hx]))

theorem stripColon_eq_self (l : List Char) (hhead : ∀ x, l.head? = some x → x ≠ ':') :
    stripColon l = l := by
  cases l with
  | nil => rfl
  | cons x t =>
    have hx : x ≠ ':' := hhead x rfl
    unfold stripColon
    split
    · next heq => exact absurd (List.head_eq_of_cons_eq heq).symm fun hc => hx hc.symm
    · rfl

theorem scanTime_iff_parts (cs : List Char) : (scanTime cs).isSome = true ↔
    ((takeDigits2 cs).1 ≠ [] ∧ natOfDigits (takeDigits2 cs).1 ≤ 23 ∧
      natOfDigits (takeDigits2 (stripColon (takeDigits2 cs).2)).1 ≤ 59 ∧
      IsMarker ((takeDigits2 (stripColon (takeDigits2 cs).2)).2.dropWhile pyIsSpace)) := by
  simp only [scanTime]
  by_cases h1 : (takeDigits2 cs).1 = []
  · rw [if_pos h1]
    simp [h1]
  · rw [if_neg h1]
    set r4 := (takeDigits2 (stripColon (takeDigits2 cs).2)).2.dropWhile pyIsSpace with hr4
    have hrange : ∀ q : Option Bool,
        ((if natOfDigits (takeDigits2 cs).1 > 23 ∨
            natOfDigits (takeDigits2 (stripColon (takeDigits2 cs).2)).1 > 59 then
          (none : Option (Nat × Nat × Option Bool))
        else some (natOfDigits (takeDigits2 cs).1,
          natOfDigits (takeDigits2 (stripColon (takeDigits2 cs).2)).1, q)).isSome = true) ↔
        (natOfDigits (takeDigits2 cs).1 ≤ 23 ∧
          natOfDigits (takeDigits2 (stripColon (takeDigits2 cs).2)).1 ≤ 59) := by
      intro q
      by_cases hr : natOfDigits (takeDigits2 cs).1 > 23 ∨
          natOfDigits (takeDigits2 (stripColon (takeDigits2 cs).2)).1 > 59
      · rw [if_pos hr]
        simp only [Option.isSome_none, Bool.false_eq_true, false_iff]
        omega
      · rw [if_neg hr]
        simp only [Option.isSome_some, true_iff]
        omega
    by_cases hm1 : r4 = []
    · rw [if_pos hm1]
      simp only [hrange, h1, IsMarker, hm1]
      simp
      exact fun _ _ => h1
    · rw [if_neg hm1]
      by_cases hm2 : r4 = ['a'] ∨ r4 = ['a', 'm']
      · rw [if_pos (by simpa using hm2)]
        simp only [hrange, h1, IsMarker]
        rcases hm2 with h | h <;> simp [h] <;> exact fun _ _ => h1
      · rw [if_neg (by simpa using hm2)]
        by_cases hm3 : r4 = ['p'] ∨ r4 = ['p', 'm']
        · rw [if_pos (by simpa using hm3)]
          simp only [hrange, h1, IsMarker]
          rcases hm3 with h | h <;> simp [h] <;> exact fun _ _ => h1
        · rw [if_neg (by simpa using hm3)]
          simp only [Option.isSome_none, Bool.false_eq_true, false_iff, IsMarker]
          push_neg at hm2 hm3 ⊢
          exact fun _ _ _ => ⟨hm1, hm2.1, hm3.1, hm2.2, hm3.2⟩

theorem digit_ne_colon (x : Char) (h : x.isDigit = true) : x ≠ ':' := by
  intro hc
  rw [hc] at h
  simp at h

theorem space_ne_colon (x : Char) (h : pyIsSpace x = true) : x ≠ ':' := by
  intro hc
  rw [hc] at h
  simp [pyIsSpace] at h

theorem marker_head_not_space (p : List Char) (hp : IsMarker p) :
    ∀ x, p.head? = some x → pyIsSpace x = false := by
  rcases hp with rfl | rfl | rfl | rfl | rfl <;> intro x hx <;> simp at hx <;>
    rw [← hx] <;> rfl

theorem marker_head_ne_colon (p : List Char) (hp : IsMarker p) :
    ∀ x, p.head? = some x → x ≠ ':' := by
  rcases hp with rfl | rfl | rfl | rfl | rfl <;> intro x hx <;> simp at hx <;>
    rw [← hx] <;> decide

theorem head_append_cases (l1 l2 : List Char) (x : Char)
    (h : (l1 ++ l2).head? = some x) : (l1.head? = some x) ∨ (l1 = [] ∧ l2.head? = some x) := by
  cases l1 with
  | nil => exact Or.inr ⟨rfl, h⟩
  | cons a t => exact Or.inl (by simpa using h)

theorem scanTime_isSome_iff (cs : List Char) : (scanTime cs).isSome = true ↔ TimeShape cs := by
  rw [scanTime_iff_parts]
  constructor
  · rintro ⟨hne, hh23, hm59, hmk⟩
    obtain ⟨hsp1, hdig1, hlen1, hgr1⟩ := takeDigits2_spec cs
    obtain ⟨c, rest2, hcor, hr1eq, hscol⟩ :
        ∃ c rest2, (c = [] ∨ c = [':']) ∧ (takeDigits2 cs).2 = c ++ rest2 ∧
          stripColon (takeDigits2 cs).2 = rest2 := by
      cases hT : (takeDigits2 cs).2 with
      | nil => exact ⟨[], [], Or.inl rfl, rfl, rfl⟩
      | cons x t =>
        by_cases hx : x = ':'
        · subst hx
          exact ⟨[':'], t, Or.inr rfl, rfl, rfl⟩
        · refine ⟨[], x :: t, Or.inl rfl, rfl, ?_⟩
          exact stripColon_eq_self _ (fun y hy => by simp at hy; rw [← hy]; exact hx)
    rw [hscol] at hm59 hmk
    obtain ⟨hsp2, hdig2, hlen2, hgr2⟩ := takeDigits2_spec rest2
    refine ⟨(takeDigits2 cs).1, c, (takeDigits2 rest2).1,
      (takeDigits2 rest2).2.takeWhile pyIsSpace, (takeDigits2 rest2).2.dropWhile pyIsSpace,
      ?_, hdig1, ?_, hlen1, hcor, hdig2, hlen2, ?_, ?_, ?_, hmk, hh23, hm59⟩
    · rw [List.append_assoc, List.append_assoc, List.append_assoc,
        List.takeWhile_append_dropWhile, hsp2, ← hr1eq, hsp1]
    · have := List.length_pos.mpr hne
      omega
    · intro x hx hdx
      have hx2 : (takeDigits2 cs).2.head? = some x := by
        rw [hr1eq]
        rw [List.append_assoc, List.append_assoc, List.takeWhile_append_dropWhile] at hx
        rwa [hsp2] at hx
      rcases hgr1 with hg | hg
      · exact hg
      · rw [hg x hx2] at hdx
        simp at hdx
    · intro x hx hdx
      rw [List.takeWhile_append_dropWhile] at hx
      rcases hgr2 with hg | hg
      · exact hg
      · rw [hg x hx] at hdx
        simp at hdx
    · exact fun x hx => List.mem_takeWhile_imp hx
  · rintro ⟨hd, c, md, w, p, rfl, hdig, hl1, hl2, hc, hmdig, hmlen, hg1, hg2, hw, hpmark, hhr, hmr⟩
    have hassoc : hd ++ c ++ md ++ w ++ p = hd ++ (c ++ (md ++ (w ++ p))) := by
      simp [List.append_assoc]
    have hbuild1 : takeDigits2 (hd ++ (c ++ (md ++ (w ++ p)))) = (hd, c ++ (md ++ (w ++ p))) := by
      apply takeDigits2_build _ _ hdig hl2
      by_cases hcase : ∃ x, (c ++ (md ++ (w ++ p))).head? = some x ∧ x.isDigit = true
      · obtain ⟨x, hx1, hx2⟩ := hcase
        refine Or.inl (hg1 x ?_ hx2)
        rwa [List.append_assoc, List.append_assoc]
      · right
        intro x hhx
        by_cases hdx : x.isDigit = true
        · exact absurd ⟨x, hhx, hdx⟩ hcase
        · simpa using hdx
    have hheadrest : ∀ x, (md ++ (w ++ p)).head? = some x → x ≠ ':' := by
      intro x hx
      rcases head_append_cases md (w ++ p) x hx with hmd | ⟨hmdnil, hx2⟩
      · exact digit_ne_colon x (hmdig x (List.mem_of_mem_head? hmd))
      · rcases head_append_cases w p x hx2 with hw2 | ⟨hwnil, hx3⟩
        · exact space_ne_colon x (hw x (List.mem_of_mem_head? hw2))
        · exact marker_head_ne_colon p hpmark x hx3
    have hstrip : stripColon (c ++ (md ++ (w ++ p))) = md ++ (w ++ p) := by
      rcases hc with rfl | rfl
      · rw [List.nil_append]
        exact stripColon_eq_self _ hheadrest
      · rfl
    have hbuild2 : takeDigits2 (md ++ (w ++ p)) = (md, w ++ p) := by
      apply takeDigits2_build _ _ hmdig hmlen
      by_cases hcase : ∃ x, (w ++ p).head? = some x ∧ x.isDigit = true
      · obtain ⟨x, hx1, hx2⟩ := hcase
        exact Or.inl (hg2 x hx1 hx2)
      · right
        intro x hhx
        by_cases hdx : x.isDigit = true
        · exact absurd ⟨x, hhx, hdx⟩ hcase
        · simpa using hdx
    have hdrop : (w ++ p).dropWhile pyIsSpace = p :=
      dropWhile_append_of w p hw (marker_head_not_space p hpmark)
    rw [hassoc, hbuild1]
    dsimp only
    rw [hstrip, hbuild2]
    dsimp only
    rw [hdrop]
    refine ⟨?_, hhr, hmr, hpmark⟩
    intro hcon
    rw [hcon] at hl1
    simp at hl1

/-- C3 amended: parse succeeds exactly when the lowercased, whitespace-
stripped input consists of a 1-2 digit hour (taken greedily), an optional
colon, a 0-2 digit minute (which may follow the hour directly, without a
colon), optional whitespace, and an optional case-insensitive period
marker a/p/am/pm, with hour at most 23 and minute at most 59; every other
string (the empty string included) yields the error triple
`(none, none, true)`. -/
theorem parse_time_accepts_iff (raw : String) (b : Bool) :
    ((parse_time raw b).isSome = true ↔ TimeShape (pyStrip (pyLower raw.data))) ∧
    (¬ TimeShape (pyStrip (pyLower raw.data)) → parse_time_full raw b = (none, none, true)) := by
  have hmain : (parse_time raw b).isSome = true ↔ TimeShape (pyStrip (pyLower raw.data)) := by
    unfold parse_time
    by_cases hr : raw = ""
    · rw [if_pos hr]
      subst hr
      simp only [Option.isSome_none, Bool.false_eq_true, false_iff]
      intro hts
      unfold TimeShape at hts
      obtain ⟨hd, c, md, w, p, heq, hdig, hl1, hl2, hrest⟩ := hts
      have hnil : pyStrip (pyLower ("" : String).data) = [] := rfl
      rw [hnil] at heq
      have hlen := congrArg List.length heq
      simp at hlen
      omega
    · rw [if_neg hr]
      rw [← scanTime_isSome_iff]
      cases scanTime (pyStrip (pyLower raw.data)) with
      | none => rfl
      | some v =>
        obtain ⟨h1, h2, p⟩ := v
        rfl
  refine ⟨hmain, fun hns => ?_⟩
  unfold parse_time_full
  cases hp : parse_time raw b with
  | none => rfl
  | some m => exact absurd (hmain.mp (by rw [hp]; rfl)) hns

/-- Counterexample to C3 as stated: "130" (minute digits not separated by
a colon) and "8 am" (whitespace between the hour and the period marker)
both parse successfully but are outside the token shape that the claim
describes. -/
theorem parse_time_accepts_iff_cex :
    (parse_time "130" true).isSome = true ∧ parse_time "130" true = some 780 ∧
    specTimeShape "130" = false ∧
    (parse_time "8 am" true).isSome = true ∧ specTimeShape "8 am" = false := by decide

/-- Witness for C3 amended: "8:30am" is accepted via its grammar
decomposition, and the out-of-range "99" yields the error triple. -/
theorem parse_time_accepts_iff_witness :
    (parse_time "8:30am" true).isSome = true ∧
    parse_time_full "99" true = (none, none, true) := by
  constructor
  · refine (parse_time_accepts_iff "8:30am" true).1.mpr
      ⟨['8'], [':'], ['3', '0'], [], ['a', 'm'], by decide, by decide, by decide, by decide,
        Or.inr rfl, by decide, by decide, by decide, by decide, by decide, ?_, by decide, by decide⟩
    right; right; right; left; rfl
  · have hno : ¬ TimeShape (pyStrip (pyLower ("99" : String).data)) := by
      intro hts
      have h2 := (parse_time_accepts_iff "99" true).1.mpr hts
      rw [show parse_time "99" true = none from by decide] at h2
      simp at h2
    exact (parse_time_accepts_iff "99" true).2 hno
